import Mathlib

/-!
# Verification of the FPL league-augmentation core (content.js)

Shallow embedding of the derived-metrics and caching core of the
browser extension: the free-transfer simulator and reconciler, the
player-statistics snapshot window, the league effective-ownership
aggregator, the my-entry-id resolution chain, and the per-key
cache/pending deduplication state machine.

JavaScript numbers that hold integral API quantities are modelled as
`Int` (with `Option Int` standing for `null`/`undefined`/absent
fields); fractional statistics are modelled as `ℚ`.  JS `Math.floor`
on a quotient of integers is `Int.fdiv`.
-/

namespace FPL

/-! ## Free-transfer simulation (`computeRemainingTransfers`) -/

/-- One row of `historyData.current`: per-gameweek entry history.
`none` models an absent or non-numeric field. -/
structure HistRow where
  event : Option Int
  event_transfers : Option Int
  event_transfers_cost : Option Int
deriving DecidableEq

/-- One row of `historyData.chips`: a chip played at a gameweek. -/
structure ChipRow where
  event : Option Int
  name : String
deriving DecidableEq

/-- The `historyData` payload consumed by `computeRemainingTransfers`. -/
structure HistoryData where
  current : List HistRow
  chips : List ChipRow
deriving DecidableEq

/-- The live-override object built by `loadEntryLeagueData` and passed
as `currentEventData`. -/
structure CurrentEventData where
  activeChipRaw : String
  eventTransfers : Option Int
  eventTransfersCost : Option Int
deriving DecidableEq

/-- `s.includes(sub)` on JS strings, via `splitOn`. -/
def strIncludes (s sub : String) : Bool :=
  (s.splitOn sub).length > 1

/-- `isWildcardChip` from the source: lowercased name equals `"wc"` or
contains `"wildcard"`. -/
def isWildcardChip (name : String) : Bool :=
  let s := name.toLower
  s == "wc" || strIncludes s "wildcard"

/-- `isFreeHitChip` from the source: lowercased name equals `"fh"` or
contains `"freehit"` or `"free_hit"`. -/
def isFreeHitChip (name : String) : Bool :=
  let s := name.toLower
  s == "fh" || strIncludes s "freehit" || strIncludes s "free_hit"

/-- `rowByEvent.get(ev)`: the JS `Map` is filled in list order with
`set` overwriting, so the last row carrying the event wins. -/
def rowByEvent (rows : List HistRow) (ev : Int) : Option HistRow :=
  (rows.filter (fun r => r.event == some ev)).getLast?

/-- `chipByEvent.get(ev)`: lowercased chip name of the last chip row
carrying the event. -/
def chipByEvent (chips : List ChipRow) (ev : Int) : Option String :=
  ((chips.filter (fun c => c.event == some ev)).getLast?).map (fun c => c.name.toLower)

/-- The active-chip string resolved for gameweek `ev`
(`currentEventData?.activeChipRaw || chipByEvent.get(ev) || ""`,
lowercased; the override only applies when `ev` is the target). -/
def resolveChip (hd : HistoryData) (cur : Option CurrentEventData)
    (target : Int) (ev : Int) : String :=
  let histChip := (chipByEvent hd.chips ev).getD ""
  let raw :=
    if ev = target then
      match cur with
      | none => histChip
      | some c => if c.activeChipRaw = "" then histChip else c.activeChipRaw
    else histChip
  raw.toLower

/-- Transfers made resolved for gameweek `ev`
(`currentEventData?.eventTransfers ?? row?.event_transfers ?? 0`,
the override chain only applying when `ev` is the target). -/
def resolveTransfers (hd : HistoryData) (cur : Option CurrentEventData)
    (target : Int) (ev : Int) : Int :=
  let rowT := (rowByEvent hd.current ev).bind (fun r => r.event_transfers)
  (if ev = target then (cur.bind (fun c => c.eventTransfers)).orElse (fun _ => rowT)
   else rowT).getD 0

/-- Transfer point cost resolved for gameweek `ev`
(`currentEventData?.eventTransfersCost ?? row?.event_transfers_cost ?? 0`). -/
def resolveCost (hd : HistoryData) (cur : Option CurrentEventData)
    (target : Int) (ev : Int) : Int :=
  let rowC := (rowByEvent hd.current ev).bind (fun r => r.event_transfers_cost)
  (if ev = target then (cur.bind (fun c => c.eventTransfersCost)).orElse (fun _ => rowC)
   else rowC).getD 0

/-- One iteration of the simulation loop body at gameweek `ev` with
incoming bank `ftEndPrev`. -/
def simStep (hd : HistoryData) (cur : Option CurrentEventData)
    (target : Int) (ftEndPrev : Int) (ev : Nat) : Int :=
  let ftStart : Int := if ev = 1 then 1 else min 5 (ftEndPrev + 1)
  let chip := resolveChip hd cur target (ev : Int)
  let transfers := resolveTransfers hd cur target (ev : Int)
  let transferCost := resolveCost hd cur target (ev : Int)
  let paidTransfers := max 0 (transferCost.fdiv 4)
  let freeTransfersUsed := max 0 (transfers - paidTransfers)
  if isWildcardChip chip then ftStart
  else if isFreeHitChip chip then ftStart
  else max 0 (ftStart - freeTransfersUsed)

/-- `ftEndPrev` after the loop has processed gameweeks `1..n`
(initialized to `1` before gameweek 1). -/
def simLoop (hd : HistoryData) (cur : Option CurrentEventData)
    (target : Int) : Nat → Int
  | 0 => 1
  | n + 1 => simStep hd cur target (simLoop hd cur target n) (n + 1)

/-- `computeRemainingTransfers(historyData, eventId, currentEventData)`:
run the simulation to the target gameweek, then apply the stale-data
fallback guard.  `none` models the early `return null`. -/
def computeRemainingTransfers (hd : HistoryData) (eventId : Int)
    (cur : Option CurrentEventData) : Option Int :=
  if eventId < 1 then none
  else
    let ftEndPrev := simLoop hd cur eventId eventId.toNat
    let guardTransfers := (cur.bind (fun c => c.eventTransfers)).getD 0
    let guardCost := (cur.bind (fun c => c.eventTransfersCost)).getD 0
    if 1 < eventId ∧ 0 < guardTransfers ∧ 0 ≤ guardCost ∧ ftEndPrev = 0 then
      let currentTransfers := max 0 guardTransfers
      let currentPaid := max 0 (guardCost.fdiv 4)
      let currentFreeUsed := max 0 (currentTransfers - currentPaid)
      if currentFreeUsed ≤ 1 then some 1 else some ftEndPrev
    else some ftEndPrev

/-- Modelled from the spec's words (§4.4 Estimator A), for comparison
with the source's loop: state `ftEndOfPrevGw` starts at 1;
`ftStart = (gw == 1) ? 1 : min(5, ftEndOfPrevGw + 1)`;
`paidTransfers = floor(cost / 4)`;
`freeTransfersUsed = max(0, transfersMade - paidTransfers)`; a
wildcard/free-hit gameweek leaves the bank at `ftStart`; otherwise
`ftEndOfPrevGw = max(0, ftStart - freeTransfersUsed)`.  The per-gameweek
chip/transfers/cost inputs are abstract functions of the gameweek. -/
def specSimulate (chipFree : Nat → Bool) (made cost : Nat → Int) : Nat → Int
  | 0 => 1
  | n + 1 =>
    let gw := n + 1
    let ftStart : Int := if gw = 1 then 1 else min 5 (specSimulate chipFree made cost n + 1)
    if chipFree gw then ftStart
    else max 0 (ftStart - max 0 (made gw - (cost gw).fdiv 4))

/-! ## Own-entry reconciliation merge (`loadEntryLeagueData`) -/

/-- The hard-coded manual override constant `MANUAL_MY_REMAINING_FT`. -/
def MANUAL_MY_REMAINING_FT : Int := 2

/-- `exactRemainingProjected = min(5, max(0, exactRemainingCurrent + 1))`
when the current value is known, else `null`. -/
def projectedRemaining (cur : Option Int) : Option Int :=
  cur.map (fun c => min 5 (max 0 (c + 1)))

/-- Zero-suppression of a fallback candidate: drop a candidate that is
exactly `0` while transfers were made this gameweek. -/
def suppressZero (transfersMade : Int) (v : Option Int) : Option Int :=
  if 0 < transfersMade ∧ v = some 0 then none else v

/-- `mergedRemaining` from `loadEntryLeagueData`: for the user's own
entry, the fold `reduce((max, v) => Math.max(max, v), -1)` over the
finite candidates `[manual, safeCur, safeNext, safeProj, safeMem,
safeCache, safeHtml, calcSim]` (note: `manual` and `calc` enter raw, the
others zero-suppressed); for any other entry, the simulation value
alone (or `-1`). -/
def mergedRemaining (own : Bool) (manual cur next mem cachd html calcSim : Option Int)
    (transfersMade : Int) : Int :=
  if own then
    (([manual,
       suppressZero transfersMade cur,
       suppressZero transfersMade next,
       suppressZero transfersMade (projectedRemaining cur),
       suppressZero transfersMade mem,
       suppressZero transfersMade cachd,
       suppressZero transfersMade html,
       calcSim]).filterMap id).foldl max (-1)
  else calcSim.getD (-1)

/-- The `remainingTransfers` field finally stored on the league-row
data: the merged value when non-negative, else the raw simulation
value, else `"n/a"` (modelled as `none`). -/
def remainingReported (own : Bool) (manual cur next mem cachd html calcSim : Option Int)
    (transfersMade : Int) : Option Int :=
  let m := mergedRemaining own manual cur next mem cachd html calcSim transfersMade
  if m < 0 then calcSim else some m

/-- Modelled from the spec's words (§4.4 merge policy), for comparison:
every candidate — manual override, the live my-team-derived values
(current, next, projected), the in-session remembered value, the
persisted cached value, the transfers-page scrape, and the historical
simulation — is zero-suppressed, and the result is the maximum of the
non-unavailable candidates (`none` when all are unavailable). -/
def specMergedRemaining (manual cur next mem cachd html calcSim : Option Int)
    (transfersMade : Int) : Option Int :=
  (([manual, cur, next, projectedRemaining cur, mem, cachd, html, calcSim].map
      (suppressZero transfersMade)).filterMap id).max?

/-! ## My-entry-id resolution chain (`loadMyEntryId`) -/

/-- The early-return chain of `loadMyEntryId` as a pure function of
what each source would yield (with the session memo unset): URL path,
then navigation DOM hint, then the persisted cached entry id, then the
`/me/` API lookup. -/
def loadMyEntryIdChain (pathId navId cacheId apiId : Option Int) : Option Int :=
  match pathId with
  | some v => some v
  | none =>
    match navId with
    | some v => some v
    | none =>
      match cacheId with
      | some v => some v
      | none => apiId

/-- Modelled from the spec's words (§4.3 step 2): the priority chain in
the claimed order URL path → API session lookup → navigation DOM hint →
locally cached value, first defined wins. -/
def specEntryIdChain (pathId apiId navId cacheId : Option Int) : Option Int :=
  match pathId with
  | some v => some v
  | none =>
    match apiId with
    | some v => some v
    | none =>
      match navId with
      | some v => some v
      | none => cacheId

/-! ## Player statistics snapshot (`loadPlayerData`) -/

/-- One row of a player's match history (`element-summary` payload).
Fractional expected-stat fields are rationals; `xGC = none` models a
row that does not report expected goals conceded (absent or
non-numeric under `Number.isFinite`). -/
structure MatchRow where
  round : Int
  minutes : Int
  clean_sheets : Int
  saves : Int
  xG : ℚ
  xA : ℚ
  xGC : Option ℚ
deriving DecidableEq

/-- The sort comparator `(a, b) => Number(a.round ?? 0) - Number(b.round ?? 0)`
as a boolean total preorder; JS `Array.prototype.sort` is stable, as is
`List.mergeSort`. -/
def roundLE (a b : MatchRow) : Bool :=
  a.round ≤ b.round

/-- `[...hist].sort((a, b) => a.round - b.round)`. -/
def sortRows (hist : List MatchRow) : List MatchRow :=
  hist.mergeSort roundLE

/-- `minutes > 0`: the row counts as a played match. -/
def playedRow (m : MatchRow) : Bool :=
  0 < m.minutes

/-- `played.slice(-5)`: the trailing five elements (or all of them). -/
def lastFive (l : List MatchRow) : List MatchRow :=
  l.drop (l.length - 5)

/-- The snapshot window: sort by round ascending, keep played rows,
take the trailing five. -/
def computeWindow (hist : List MatchRow) : List MatchRow :=
  lastFive ((sortRows hist).filter playedRow)

/-- `games = last5.length || 1`: the guarded divisor. -/
def gamesOf (hist : List MatchRow) : Nat :=
  if (computeWindow hist).length = 0 then 1 else (computeWindow hist).length

/-- `xgc5`: sum of expected goals conceded over the window rows that
report the field (the accumulation loop skips `null`). -/
def xgcSum (hist : List MatchRow) : ℚ :=
  ((computeWindow hist).map (fun m => m.xGC.getD 0)).sum

/-- `xgcPerMatch5 = games > 0 ? (xgc5 / games) : 0`. -/
def xgcPerMatch5 (hist : List MatchRow) : ℚ :=
  if 0 < gamesOf hist then xgcSum hist / (gamesOf hist : ℚ) else 0

/-! ## League effective ownership (`loadLeagueEOForEvent`) -/

/-- One element of a rival's `picks` array.  `element = none` models a
non-finite `Number(pick?.element)`, which the loop skips. -/
structure Pick where
  element : Option Int
  isCaptain : Bool
  isViceCaptain : Bool
deriving DecidableEq

/-- A successfully fetched rival picks payload. -/
structure RivalPicks where
  picks : List Pick
  activeChip : String
deriving DecidableEq

/-- `String(data?.active_chip || "").trim().toLowerCase() === "3xc"`. -/
def isTripleCaptainChip (r : RivalPicks) : Bool :=
  r.activeChip.trim.toLower == "3xc"

/-- Effective-ownership units one pick contributes for player `p`:
owned is +1, the captain +1 more, and +1 again under a
triple-captain chip. -/
def pickUnits (tc : Bool) (p : Int) (k : Pick) : Nat :=
  match k.element with
  | none => 0
  | some e =>
    if e = p then 1 + (if k.isCaptain then 1 + (if tc then 1 else 0) else 0) else 0

/-- Units a single successful rival contributes for player `p`. -/
def rivalUnits (p : Int) (r : RivalPicks) : Nat :=
  (r.picks.map (pickUnits (isTripleCaptainChip r) p)).sum

/-- `successfulRivals`: a failed fetch (`none`) is simply not counted. -/
def successfulRivals (rs : List (Option RivalPicks)) : Nat :=
  (rs.filterMap id).length

/-- `eoUnitsByPlayer.get(p)` after the fan-out completes. -/
def eoUnits (p : Int) (rs : List (Option RivalPicks)) : Nat :=
  ((rs.filterMap id).map (rivalUnits p)).sum

/-- `eoByPlayerId.get(p) = (units / successfulRivals) * 100`. -/
def eoPct (p : Int) (rs : List (Option RivalPicks)) : ℚ :=
  ((eoUnits p rs : ℚ) / (successfulRivals rs : ℚ)) * 100

/-- The rival owns player `p`: some pick selects them. -/
def ownsPlayer (p : Int) (r : RivalPicks) : Bool :=
  r.picks.any (fun k => k.element == some p)

/-- The rival captains player `p`. -/
def captainsPlayer (p : Int) (r : RivalPicks) : Bool :=
  r.picks.any (fun k => k.element == some p && k.isCaptain)

/-- The rival triple-captains player `p`. -/
def tripleCaptainsPlayer (p : Int) (r : RivalPicks) : Bool :=
  captainsPlayer p r && isTripleCaptainChip r

/-- Number of successful rivals owning `p`. -/
def ownedCount (p : Int) (rs : List (Option RivalPicks)) : Nat :=
  ((rs.filterMap id).filter (ownsPlayer p)).length

/-- Number of successful rivals captaining `p`. -/
def captainedCount (p : Int) (rs : List (Option RivalPicks)) : Nat :=
  ((rs.filterMap id).filter (captainsPlayer p)).length

/-- Number of successful rivals triple-captaining `p`. -/
def tripleCaptainedCount (p : Int) (rs : List (Option RivalPicks)) : Nat :=
  ((rs.filterMap id).filter (tripleCaptainsPlayer p)).length

/-! ## Mini-league ownership snapshot (`loadMiniLeagueOwnership`) -/

/-- A successfully fetched rival entry (`entryId` plus its picks). -/
structure RivalEntry where
  entryId : Int
  picks : List Pick
  activeChip : String
deriving DecidableEq

/-- The three per-player rival-entry sets built by the aggregation. -/
structure OwnershipMaps where
  ownedBy : Int → Finset Int
  captainedBy : Int → Finset Int
  tripleCaptainedBy : Int → Finset Int

/-- Insert entry `e` into the set a map holds for player `p`. -/
def addTo (f : Int → Finset Int) (p e : Int) : Int → Finset Int :=
  fun q => if q = p then insert e (f q) else f q

/-- Processing of a single pick inside the rival loop; the second
component tracks `captainId` (last captain pick wins). -/
def processPick (e : Int) (st : OwnershipMaps × Option Int) (k : Pick) :
    OwnershipMaps × Option Int :=
  match k.element with
  | none => st
  | some pid =>
    let m := st.1
    let owned := addTo m.ownedBy pid e
    if k.isCaptain then
      ({ ownedBy := owned
         captainedBy := addTo m.captainedBy pid e
         tripleCaptainedBy := m.tripleCaptainedBy }, some pid)
    else ({ m with ownedBy := owned }, st.2)

/-- Processing of one successful rival: fold its picks, then record the
triple-captain set from the tracked captain under a `3xc` chip. -/
def processRival (st : OwnershipMaps) (r : RivalEntry) : OwnershipMaps :=
  let res := r.picks.foldl (processPick r.entryId) (st, none)
  match res.2 with
  | none => res.1
  | some c =>
    if r.activeChip.toLower == "3xc" then
      { res.1 with tripleCaptainedBy := addTo res.1.tripleCaptainedBy c r.entryId }
    else res.1

/-- The empty ownership maps. -/
def emptyOwnership : OwnershipMaps :=
  { ownedBy := fun _ => ∅, captainedBy := fun _ => ∅, tripleCaptainedBy := fun _ => ∅ }

/-- `playerOwnershipMap` after the fan-out: failed fetches contribute
nothing. -/
def buildOwnership (rs : List (Option RivalEntry)) : OwnershipMaps :=
  (rs.filterMap id).foldl processRival emptyOwnership

/-- Successful-rival denominator for the mini-league snapshot. -/
def mlSuccessfulRivals (rs : List (Option RivalEntry)) : Nat :=
  (rs.filterMap id).length

/-- `ownershipPct = ownedBy.size / successfulRivals * 100`. -/
def ownershipPct (rs : List (Option RivalEntry)) (p : Int) : ℚ :=
  (((buildOwnership rs).ownedBy p).card : ℚ) / (mlSuccessfulRivals rs : ℚ) * 100

/-- `captainPct = captainedBy.size / successfulRivals * 100`. -/
def captainPct (rs : List (Option RivalEntry)) (p : Int) : ℚ :=
  (((buildOwnership rs).captainedBy p).card : ℚ) / (mlSuccessfulRivals rs : ℚ) * 100

/-- `tripleCaptainPct = tripleCaptainedBy.size / successfulRivals * 100`. -/
def tripleCaptainPct (rs : List (Option RivalEntry)) (p : Int) : ℚ :=
  (((buildOwnership rs).tripleCaptainedBy p).card : ℚ) / (mlSuccessfulRivals rs : ℚ) * 100

/-- `eoPct = ownershipPct + captainPct + tripleCaptainPct`. -/
def mlEoPct (rs : List (Option RivalEntry)) (p : Int) : ℚ :=
  ownershipPct rs p + captainPct rs p + tripleCaptainPct rs p

/-! ## Per-key cache / pending deduplication (`loadEntryHistory` and
`loadEntryLeagueData` pattern)

Single-threaded cooperative concurrency: a trace is the interleaving of
call events (a caller reaching the cache/pending checks) and the
completion of the in-flight computation, which is the only suspension
point.  `fetches` counts how many times the underlying compute/fetch
was started. -/

/-- Observable events at one cache key. -/
inductive CacheEvent (V : Type) where
  | call
  | complete (v : V)
deriving DecidableEq

/-- State held for one cache key: the completed cache entry (which may
itself be a cached failure sentinel), whether a computation is in
flight, and how many computes were ever started. -/
structure CacheState (V : Type) where
  completed : Option V
  pending : Bool
  fetches : Nat
deriving DecidableEq

/-- What a caller gets back from the `getOrCompute` pattern. -/
inductive CallOutcome (V : Type) where
  | cachedVal (v : V)
  | joinedPending
  | startedFetch
deriving DecidableEq

/-- The branch structure of `loadEntryHistory`/`loadEntryLeagueData`:
cached value first, then the pending in-flight promise, else start a
new computation and record it as pending. -/
def callStep {V : Type} (s : CacheState V) : CacheState V :=
  match s.completed with
  | some _ => s
  | none =>
    if s.pending then s
    else { s with pending := true, fetches := s.fetches + 1 }

/-- What the call returns in each branch. -/
def callOutcome {V : Type} (s : CacheState V) : CallOutcome V :=
  match s.completed with
  | some v => CallOutcome.cachedVal v
  | none => if s.pending then CallOutcome.joinedPending else CallOutcome.startedFetch

/-- Completion of the in-flight computation: store the result in the
completed cache (failures included, as sentinel values) and clear the
pending entry. -/
def completeStep {V : Type} (s : CacheState V) (v : V) : CacheState V :=
  { completed := some v, pending := false, fetches := s.fetches }

/-- Run a trace of events. -/
def runTrace {V : Type} (s : CacheState V) : List (CacheEvent V) → CacheState V
  | [] => s
  | CacheEvent.call :: rest => runTrace (callStep s) rest
  | CacheEvent.complete v :: rest => runTrace (completeStep s v) rest

/-- A trace is valid when every completion event completes an actually
in-flight computation. -/
def validTrace {V : Type} (s : CacheState V) : List (CacheEvent V) → Bool
  | [] => true
  | CacheEvent.call :: rest => validTrace (callStep s) rest
  | CacheEvent.complete v :: rest => s.pending && validTrace (completeStep s v) rest

/-- The state before any caller arrives. -/
def initCache (V : Type) : CacheState V :=
  { completed := none, pending := false, fetches := 0 }

/-- The caching branch structure of `loadPlayerData` (the player-stats
domain): a completed-cache check only — this domain keeps no pending
map, so every call that misses the cache starts a fetch. -/
def playerCallStep {V : Type} (s : CacheState V) : CacheState V :=
  match s.completed with
  | some _ => s
  | none => { s with fetches := s.fetches + 1 }

/-- Run a trace of events against the `loadPlayerData` pattern; a
completion writes the completed cache exactly as `completeStep`. -/
def runPlayerTrace {V : Type} (s : CacheState V) :
    List (CacheEvent V) → CacheState V
  | [] => s
  | CacheEvent.call :: rest => runPlayerTrace (playerCallStep s) rest
  | CacheEvent.complete v :: rest => runPlayerTrace (completeStep s v) rest

/-! ## Shared helper lemmas -/

theorem le_foldl_max_init (l : List Int) (a : Int) : a ≤ l.foldl max a := by
  induction l generalizing a with
  | nil => exact le_refl a
  | cons x t ih => exact le_trans (le_max_left a x) (ih (max a x))

theorem foldl_max_le (l : List Int) (a b : Int) (ha : a ≤ b)
    (h : ∀ x ∈ l, x ≤ b) : l.foldl max a ≤ b := by
  induction l generalizing a with
  | nil => exact ha
  | cons x t ih =>
    exact ih (max a x) (max_le ha (h x (List.mem_cons_self x t)))
      (fun y hy => h y (List.mem_cons_of_mem x hy))

theorem le_foldl_max_of_mem {l : List Int} {x : Int} (a : Int) (hx : x ∈ l) :
    x ≤ l.foldl max a := by
  induction l generalizing a with
  | nil => cases hx
  | cons y t ih =>
    rcases List.mem_cons.mp hx with h | h
    · subst h
      exact le_trans (le_max_right a x) (le_foldl_max_init t (max a x))
    · exact ih (max a y) h

theorem foldl_max_eq_init_or_mem (l : List Int) (a : Int) :
    l.foldl max a = a ∨ l.foldl max a ∈ l := by
  induction l generalizing a with
  | nil => exact Or.inl rfl
  | cons x t ih =>
    rcases ih (max a x) with h | h
    · rcases max_cases a x with ⟨hm, _⟩ | ⟨hm, _⟩
      · exact Or.inl (by rw [List.foldl_cons, h, hm])
      · exact Or.inr (by rw [List.foldl_cons, h, hm]; exact List.mem_cons_self x t)
    · exact Or.inr (List.mem_cons_of_mem x h)

/-- C3: `computeRemainingTransfers` applies the stale-data guard after
the simulation loop: when the target gameweek exceeds 1, override
transfers made are positive, the override cost is non-negative, the
simulated result is exactly 0, and fewer than 2 free transfers were
used this gameweek, the result is overridden to 1; in every other case
the loop's result is returned unchanged. -/
theorem computeRemainingTransfers_staleGuard (hd : HistoryData) (eventId : Int)
    (cur : Option CurrentEventData) (h : 1 ≤ eventId) :
    computeRemainingTransfers hd eventId cur =
      some (
        let ftEndPrev := simLoop hd cur eventId eventId.toNat
        let t := (cur.bind (fun c => c.eventTransfers)).getD 0
        let c := (cur.bind (fun c => c.eventTransfersCost)).getD 0
        if 1 < eventId ∧ 0 < t ∧ 0 ≤ c ∧ ftEndPrev = 0 ∧
            max 0 (max 0 t - max 0 (c.fdiv 4)) < 2 then 1
        else ftEndPrev) := by
  unfold computeRemainingTransfers
  have hlt : ¬ eventId < 1 := by omega
  simp only [hlt, if_false]
  split_ifs <;> first | rfl | (exact congrArg some (by omega))

/-- Witness for C3 at a concrete input: target gameweek 2, one free
transfer made at zero cost; the loop yields 1 and the guard leaves it
unchanged. -/
theorem computeRemainingTransfers_staleGuard_witness :
    (1 : Int) ≤ 2 ∧
      computeRemainingTransfers ⟨[], []⟩ 2 (some ⟨"", some 1, some 0⟩) =
        some (
          let ftEndPrev := simLoop ⟨[], []⟩ (some ⟨"", some 1, some 0⟩) 2 (Int.toNat 2)
          let t := ((some (⟨"", some 1, some 0⟩ : CurrentEventData)).bind
            (fun c => c.eventTransfers)).getD 0
          let c := ((some (⟨"", some 1, some 0⟩ : CurrentEventData)).bind
            (fun c => c.eventTransfersCost)).getD 0
          if 1 < (2 : Int) ∧ 0 < t ∧ 0 ≤ c ∧ ftEndPrev = 0 ∧
              max 0 (max 0 t - max 0 (c.fdiv 4)) < 2 then 1
          else ftEndPrev) :=
  ⟨by decide, computeRemainingTransfers_staleGuard ⟨[], []⟩ 2
    (some ⟨"", some 1, some 0⟩) (by decide)⟩

theorem resolveCost_clamp (hd : HistoryData) (cur : Option CurrentEventData)
    (target : Int) (ev : Int) (h : 0 ≤ resolveCost hd cur target ev) :
    max 0 ((resolveCost hd cur target ev).fdiv 4) =
      (resolveCost hd cur target ev).fdiv 4 :=
  max_eq_right (Int.fdiv_nonneg h (by omega))

/-- C1: the historical free-transfer simulation iterates gameweeks
`1..T` from a bank of 1, with starting bank
`ftStart = (gw == 1) ? 1 : min(5, prev + 1)`, paid transfers
`floor(cost / 4)`, free transfers used
`max(0, made - paid)`, wildcard/free-hit gameweeks leaving the bank at
its starting value, other gameweeks setting it to
`max(0, ftStart - used)` (matching the spec-worded `specSimulate` when
all resolved costs are non-negative), and gameweeks with neither a
history row nor a chip row resolving to zero transfers, zero cost and
no chip. -/
theorem simLoop_eq_specSimulate (hd : HistoryData) (cur : Option CurrentEventData)
    (target : Int)
    (hcost : ∀ ev : Nat, 0 ≤ resolveCost hd cur target (ev : Int)) :
    (∀ n : Nat, simLoop hd cur target n =
        specSimulate
          (fun gw => isWildcardChip (resolveChip hd cur target (gw : Int)) ||
            isFreeHitChip (resolveChip hd cur target (gw : Int)))
          (fun gw => resolveTransfers hd cur target (gw : Int))
          (fun gw => resolveCost hd cur target (gw : Int)) n)
    ∧ (∀ ev : Int, rowByEvent hd.current ev = none → chipByEvent hd.chips ev = none →
        ev ≠ target →
        resolveTransfers hd cur target ev = 0 ∧ resolveCost hd cur target ev = 0 ∧
          resolveChip hd cur target ev = "")
    ∧ (∀ n : Nat,
        (isWildcardChip (resolveChip hd cur target ((n + 1 : Nat) : Int)) ||
          isFreeHitChip (resolveChip hd cur target ((n + 1 : Nat) : Int))) = true →
        simLoop hd cur target (n + 1) =
          (if n + 1 = 1 then (1 : Int) else min 5 (simLoop hd cur target n + 1))) := by
  refine ⟨?_, ?_, ?_⟩
  · intro n
    induction n with
    | zero => rfl
    | succ k ih =>
      show simStep hd cur target (simLoop hd cur target k) (k + 1) =
        specSimulate _ _ _ (k + 1)
      have hstep : specSimulate
          (fun gw => isWildcardChip (resolveChip hd cur target (gw : Int)) ||
            isFreeHitChip (resolveChip hd cur target (gw : Int)))
          (fun gw => resolveTransfers hd cur target (gw : Int))
          (fun gw => resolveCost hd cur target (gw : Int)) (k + 1) =
          (let ftStart : Int := if k + 1 = 1 then 1
            else min 5 (specSimulate
              (fun gw => isWildcardChip (resolveChip hd cur target (gw : Int)) ||
                isFreeHitChip (resolveChip hd cur target (gw : Int)))
              (fun gw => resolveTransfers hd cur target (gw : Int))
              (fun gw => resolveCost hd cur target (gw : Int)) k + 1)
           if isWildcardChip (resolveChip hd cur target ((k + 1 : Nat) : Int)) ||
               isFreeHitChip (resolveChip hd cur target ((k + 1 : Nat) : Int)) then ftStart
           else max 0 (ftStart - max 0 (resolveTransfers hd cur target ((k + 1 : Nat) : Int) -
             (resolveCost hd cur target ((k + 1 : Nat) : Int)).fdiv 4))) := rfl
      rw [hstep, ← ih]
      simp only [simStep]
      rw [resolveCost_clamp hd cur target ((k + 1 : Nat) : Int) (hcost (k + 1))]
      cases hwc : isWildcardChip (resolveChip hd cur target ((k + 1 : Nat) : Int)) <;>
        cases hfh : isFreeHitChip (resolveChip hd cur target ((k + 1 : Nat) : Int)) <;>
        simp only [hwc, hfh, Bool.false_or, Bool.true_or, Bool.or_self, if_true, if_false,
          Bool.false_eq_true, Bool.true_eq_false]
  · intro ev hrow hchip hne
    refine ⟨?_, ?_, ?_⟩
    · unfold resolveTransfers
      rw [hrow]
      simp [hne]
    · unfold resolveCost
      rw [hrow]
      simp [hne]
    · unfold resolveChip
      rw [hchip]
      simp only [hne, if_false, Option.getD_none]
      simp [String.toLower, String.map_eq]
  · intro n hchip
    show simStep hd cur target (simLoop hd cur target n) (n + 1) = _
    simp only [simStep]
    rcases Bool.or_eq_true_iff.mp hchip with h | h
    · simp only [h, if_true]
    · cases hwc : isWildcardChip (resolveChip hd cur target ((n + 1 : Nat) : Int)) <;>
        simp only [hwc, h, if_true, if_false, Bool.false_eq_true]

/-- Witness for C1: empty history, no override, target gameweek 1 —
every resolved cost is 0 and the characterization applies. -/
theorem simLoop_eq_specSimulate_witness :
    (∀ ev : Nat, 0 ≤ resolveCost ⟨[], []⟩ none 1 (ev : Int)) ∧
      (∀ n : Nat, simLoop ⟨[], []⟩ none 1 n =
          specSimulate
            (fun gw => isWildcardChip (resolveChip ⟨[], []⟩ none 1 (gw : Int)) ||
              isFreeHitChip (resolveChip ⟨[], []⟩ none 1 (gw : Int)))
            (fun gw => resolveTransfers ⟨[], []⟩ none 1 (gw : Int))
            (fun gw => resolveCost ⟨[], []⟩ none 1 (gw : Int)) n)
      ∧ (∀ ev : Int, rowByEvent ([] : List HistRow) ev = none →
          chipByEvent ([] : List ChipRow) ev = none → ev ≠ 1 →
          resolveTransfers ⟨[], []⟩ none 1 ev = 0 ∧
            resolveCost ⟨[], []⟩ none 1 ev = 0 ∧
            resolveChip ⟨[], []⟩ none 1 ev = "")
      ∧ (∀ n : Nat,
          (isWildcardChip (resolveChip ⟨[], []⟩ none 1 ((n + 1 : Nat) : Int)) ||
            isFreeHitChip (resolveChip ⟨[], []⟩ none 1 ((n + 1 : Nat) : Int))) = true →
          simLoop ⟨[], []⟩ none 1 (n + 1) =
            (if n + 1 = 1 then (1 : Int) else min 5 (simLoop ⟨[], []⟩ none 1 n + 1))) := by
  have hcost : ∀ ev : Nat, 0 ≤ resolveCost ⟨[], []⟩ none 1 (ev : Int) := by
    intro ev
    unfold resolveCost rowByEvent
    simp [Option.orElse]
  exact ⟨hcost, simLoop_eq_specSimulate ⟨[], []⟩ none 1 hcost⟩

theorem simLoop_range (hd : HistoryData) (cur : Option CurrentEventData)
    (target : Int) (n : Nat) :
    0 ≤ simLoop hd cur target n ∧ simLoop hd cur target n ≤ 5 := by
  induction n with
  | zero => refine ⟨?_, ?_⟩ <;> norm_num [simLoop]
  | succ k ih =>
    show 0 ≤ simStep hd cur target (simLoop hd cur target k) (k + 1) ∧
      simStep hd cur target (simLoop hd cur target k) (k + 1) ≤ 5
    simp only [simStep]
    obtain ⟨h0, h5⟩ := ih
    have hu : 0 ≤ max 0 (resolveTransfers hd cur target ((k + 1 : Nat) : Int) -
        max 0 ((resolveCost hd cur target ((k + 1 : Nat) : Int)).fdiv 4)) :=
      le_max_left _ _
    split_ifs <;> constructor <;> omega

/-- C8 counterexample: a live my-team candidate of 6 (e.g. a raw
`limit - made` above the cap) propagates through the max-merge, so the
reported own-entry value exceeds 5. -/
theorem remainingReported_exceeds_five :
    remainingReported true (some 2) (some 6) none none none none (some 1) 0 = some 6 ∧
      ¬ ((6 : Int) ≤ 5) := by decide

/-- C8 (amended): the simulation result always lies in `[0,5]`, and so
does every value `computeRemainingTransfers` returns; the merged
own-entry `remainingTransfers` never falls below the candidates'
bounds — in particular, whenever every supplied candidate lies in
`[0,5]` the reported value lies in `[0,5]` as well (the unamended upper
bound fails when a live candidate exceeds 5, as the counterexample
shows). -/
theorem ftValue_range (hd : HistoryData) (cur : Option CurrentEventData)
    (target : Int) :
    (∀ n : Nat, 0 ≤ simLoop hd cur target n ∧ simLoop hd cur target n ≤ 5)
    ∧ (∀ eventId r, computeRemainingTransfers hd eventId cur = some r →
        0 ≤ r ∧ r ≤ 5)
    ∧ (∀ manual c1 c2 c3 c4 c5 c6 : Option Int, ∀ tm r : Int,
        (∀ v ∈ ([manual, c1, c2, c3, c4, c5, c6].filterMap id : List Int),
          0 ≤ v ∧ v ≤ 5) →
        remainingReported true manual c1 c2 c3 c4 c5 c6 tm = some r →
        0 ≤ r ∧ r ≤ 5) := by
  refine ⟨simLoop_range hd cur target, ?_, ?_⟩
  · intro eventId r h
    obtain ⟨hl0, hl5⟩ := simLoop_range hd cur eventId eventId.toNat
    unfold computeRemainingTransfers at h
    simp only [] at h
    split_ifs at h <;> (injection h with h'; omega)
  · intro manual c1 c2 c3 c4 c5 c6 tm r hb h
    have hmem : ∀ x : Int,
        (manual = some x ∨ c1 = some x ∨ c2 = some x ∨ c3 = some x ∨
          c4 = some x ∨ c5 = some x ∨ c6 = some x) → 0 ≤ x ∧ x ≤ 5 := by
      intro x hx
      refine hb x ?_
      simp only [List.mem_filterMap, id_eq]
      refine ⟨some x, ?_, rfl⟩
      simp only [List.mem_cons, List.not_mem_nil, or_false]
      rcases hx with h | h | h | h | h | h | h <;> simp [h]
    have hsupp : ∀ (v : Option Int) (x : Int),
        suppressZero tm v = some x → v = some x := by
      intro v x hv
      unfold suppressZero at hv
      split_ifs at hv
      exact hv
    unfold remainingReported at h
    by_cases hm : mergedRemaining true manual c1 c2 c3 c4 c5 c6 tm < 0
    · rw [if_pos hm] at h
      exact hmem r (Or.inr (Or.inr (Or.inr (Or.inr (Or.inr (Or.inr h))))))
    · rw [if_neg hm] at h
      have hcode : mergedRemaining true manual c1 c2 c3 c4 c5 c6 tm =
          (([manual,
             suppressZero tm c1,
             suppressZero tm c2,
             suppressZero tm (projectedRemaining c1),
             suppressZero tm c3,
             suppressZero tm c4,
             suppressZero tm c5,
             c6]).filterMap id).foldl max (-1) := rfl
      have hle : mergedRemaining true manual c1 c2 c3 c4 c5 c6 tm ≤ 5 := by
        rw [hcode]
        refine foldl_max_le _ _ _ (by norm_num) ?_
        intro x hx
        rw [List.mem_filterMap] at hx
        obtain ⟨a, ha, hax⟩ := hx
        simp only [id_eq] at hax
        subst hax
        simp only [List.mem_cons, List.not_mem_nil, or_false] at ha
        rcases ha with ha | ha | ha | ha | ha | ha | ha | ha
        · exact (hmem x (Or.inl ha.symm)).2
        · exact (hmem x (Or.inr (Or.inl (hsupp _ _ ha.symm)))).2
        · exact (hmem x (Or.inr (Or.inr (Or.inl (hsupp _ _ ha.symm))))).2
        · have hproj : projectedRemaining c1 = some x := hsupp _ _ ha.symm
          unfold projectedRemaining at hproj
          rcases Option.map_eq_some'.mp hproj with ⟨c, _, hcx⟩
          rw [← hcx]
          exact min_le_left _ _
        · exact (hmem x (Or.inr (Or.inr (Or.inr (Or.inl (hsupp _ _ ha.symm)))))).2
        · exact (hmem x (Or.inr (Or.inr (Or.inr (Or.inr (Or.inl (hsupp _ _ ha.symm))))))).2
        · exact (hmem x (Or.inr (Or.inr (Or.inr (Or.inr (Or.inr (Or.inl (hsupp _ _ ha.symm)))))))).2
        · exact (hmem x (Or.inr (Or.inr (Or.inr (Or.inr (Or.inr (Or.inr ha.symm))))))).2
      injection h with h'
      omega

/-- Witness for C8 (amended) at concrete candidates all within
`[0,5]`: manual 2, current 3, simulation 1 and one transfer made merge
to a reported value of 4, inside `[0,5]`. -/
theorem ftValue_range_witness :
    (∀ v ∈ (([some 2, some 3, none, none, none, none, some 1] :
        List (Option Int)).filterMap id), 0 ≤ v ∧ v ≤ 5) ∧
      remainingReported true (some 2) (some 3) none none none none (some 1) 1 =
        some 4 ∧
      (0 ≤ (4 : Int) ∧ (4 : Int) ≤ 5) :=
  ⟨by decide, by decide,
    (ftValue_range ⟨[], []⟩ none 1).2.2 (some 2) (some 3) none none none none
      (some 1) 1 4 (by decide) (by decide)⟩

/-- C2: for the user's own entry (whose manual override is the
hard-coded constant 2), the reported `remainingTransfers` equals the
spec-worded merge — the maximum of all non-unavailable, zero-suppressed
candidates; for any other entry it is the historical simulation's value
alone (`none` = unavailable); and the spec's worked example
(manual 2, live 1, simulation 0) merges to 2. -/
theorem foldl_max_cons_append_zero (B : List Int) (M : Int) (hM : 0 ≤ M) :
    List.foldl max (-1) (M :: (B ++ [0])) = List.foldl max (-1) (M :: B) := by
  rw [List.foldl_cons, List.foldl_cons, List.foldl_append]
  have h0 : List.foldl max (List.foldl max (max (-1) M) B) [0] =
      max (List.foldl max (max (-1) M) B) 0 := rfl
  rw [h0]
  refine max_eq_left ?_
  refine le_trans ?_ (le_foldl_max_init B (max (-1) M))
  omega

theorem reported_some_of_max (B : List Int) (M : Int) (hM : 0 ≤ M) (c : Option Int) :
    (if List.foldl max (-1) (M :: B) < 0 then c
     else some (List.foldl max (-1) (M :: B))) = (M :: B).max? := by
  have h1 : List.foldl max (-1) (M :: B) = List.foldl max M B := by
    rw [List.foldl_cons]
    have : max (-1 : Int) M = M := max_eq_right (by omega)
    rw [this]
  have h2 : ¬ (List.foldl max M B < 0) := by
    have := le_foldl_max_init B M
    omega
  rw [h1, if_neg h2]
  rfl

theorem mergePolicy_reported (cur next mem cachd html calcSim : Option Int)
    (tm : Int) :
    remainingReported true (some MANUAL_MY_REMAINING_FT) cur next mem cachd html
        calcSim tm =
      specMergedRemaining (some MANUAL_MY_REMAINING_FT) cur next mem cachd html
        calcSim tm
    ∧ (∀ (c : Option Int) (t : Int),
        remainingReported false none none none none none none c t = c)
    ∧ remainingReported true (some 2) (some 1) none none none none (some 0) 1 =
        some 2 := by
  refine ⟨?_, ?_, by decide⟩
  · have hman : suppressZero tm (some MANUAL_MY_REMAINING_FT) =
        some MANUAL_MY_REMAINING_FT := by
      unfold suppressZero MANUAL_MY_REMAINING_FT
      simp
    have hM0 : (0 : Int) ≤ MANUAL_MY_REMAINING_FT := by decide
    have hspec : specMergedRemaining (some MANUAL_MY_REMAINING_FT) cur next mem
        cachd html calcSim tm =
        ((suppressZero tm (some MANUAL_MY_REMAINING_FT) ::
          ([suppressZero tm cur, suppressZero tm next,
            suppressZero tm (projectedRemaining cur), suppressZero tm mem,
            suppressZero tm cachd, suppressZero tm html] ++
           [suppressZero tm calcSim])).filterMap id).max? := rfl
    have hcode : remainingReported true (some MANUAL_MY_REMAINING_FT) cur next
        mem cachd html calcSim tm =
        (let m := ((some MANUAL_MY_REMAINING_FT ::
            ([suppressZero tm cur, suppressZero tm next,
              suppressZero tm (projectedRemaining cur), suppressZero tm mem,
              suppressZero tm cachd, suppressZero tm html] ++
             [calcSim])).filterMap id).foldl max (-1)
         if m < 0 then calcSim else some m) := rfl
    rw [hspec, hman, hcode]
    simp only []
    by_cases hz : 0 < tm ∧ calcSim = some 0
    · obtain ⟨htm, hcs⟩ := hz
      subst hcs
      have hsz : suppressZero tm (some 0) = none := by
        unfold suppressZero
        simp [htm]
      rw [hsz]
      rw [List.filterMap_cons_some (show (id (some MANUAL_MY_REMAINING_FT) :
        Option Int) = some MANUAL_MY_REMAINING_FT from rfl)]
      rw [List.filterMap_cons_some (show (id (some MANUAL_MY_REMAINING_FT) :
        Option Int) = some MANUAL_MY_REMAINING_FT from rfl)]
      rw [List.filterMap_append, List.filterMap_append]
      rw [show (List.filterMap id [some (0 : Int)]) = [0] by decide]
      rw [show (List.filterMap id [(none : Option Int)]) = ([] : List Int) by
        decide]
      rw [List.append_nil]
      generalize List.filterMap id [suppressZero tm cur, suppressZero tm next,
        suppressZero tm (projectedRemaining cur), suppressZero tm mem,
        suppressZero tm cachd, suppressZero tm html] = B
      rw [foldl_max_cons_append_zero B MANUAL_MY_REMAINING_FT hM0]
      exact reported_some_of_max B MANUAL_MY_REMAINING_FT hM0 (some 0)
    · have hsc : suppressZero tm calcSim = calcSim := by
        unfold suppressZero
        rw [if_neg hz]
      rw [hsc]
      rw [List.filterMap_cons_some (show (id (some MANUAL_MY_REMAINING_FT) :
        Option Int) = some MANUAL_MY_REMAINING_FT from rfl)]
      generalize List.filterMap id ([suppressZero tm cur, suppressZero tm next,
        suppressZero tm (projectedRemaining cur), suppressZero tm mem,
        suppressZero tm cachd, suppressZero tm html] ++ [calcSim]) = C
      exact reported_some_of_max C MANUAL_MY_REMAINING_FT hM0 calcSim
  · intro c t
    unfold remainingReported mergedRemaining
    cases c with
    | none => rfl
    | some v =>
      by_cases hv : v < 0
      · simp only [Bool.false_eq_true, if_false, Option.getD_some]
        rw [if_pos hv]
      · simp only [Bool.false_eq_true, if_false, Option.getD_some]
        rw [if_neg hv]

/-- C9 counterexample: with the URL path undefined, the navigation DOM
hint yielding 7 and the API session lookup yielding 9, the source's
chain returns 7 while the claimed order (path → API → nav → cache)
would return 9. -/
theorem entryIdChain_order_counterexample :
    loadMyEntryIdChain none (some 7) none (some 9) = some 7 ∧
      specEntryIdChain none (some 9) (some 7) none = some 9 ∧
      loadMyEntryIdChain none (some 7) none (some 9) ≠
        specEntryIdChain none (some 9) (some 7) none := by decide

/-- C9 (amended): the own-entry id is resolved by a priority chain in
the fixed order URL path → navigation DOM hint → locally cached value →
API session lookup; the first source yielding a defined id wins and
later sources are not consulted (the result is independent of them). -/
theorem entryIdChain_order (x : Int) (navId cacheId apiId : Option Int) :
    loadMyEntryIdChain (some x) navId cacheId apiId = some x
    ∧ loadMyEntryIdChain none (some x) cacheId apiId = some x
    ∧ loadMyEntryIdChain none none (some x) apiId = some x
    ∧ loadMyEntryIdChain none none none apiId = apiId :=
  ⟨rfl, rfl, rfl, rfl⟩

/-- The inductive invariant of the per-key cache state machine:
a completed entry is never also pending, and the fetch count is exactly
one once a computation has been started (pending or completed) and zero
before. -/
def CacheInv {V : Type} (s : CacheState V) : Prop :=
  (s.completed.isSome = true → s.pending = false) ∧
    s.fetches = (if s.completed.isSome = true ∨ s.pending = true then 1 else 0)

theorem callStep_inv {V : Type} (s : CacheState V) (h : CacheInv s) :
    CacheInv (callStep s) := by
  obtain ⟨c, p, f⟩ := s
  obtain ⟨h1, h2⟩ := h
  cases c with
  | some v => exact ⟨h1, h2⟩
  | none =>
    cases p with
    | true => exact ⟨h1, h2⟩
    | false =>
      refine ⟨fun hcs => ?_, ?_⟩
      · simp [callStep] at hcs
      · simp [callStep] at h2 ⊢
        omega

theorem completeStep_inv {V : Type} (s : CacheState V) (v : V)
    (hp : s.pending = true) (h : CacheInv s) : CacheInv (completeStep s v) := by
  obtain ⟨c, p, f⟩ := s
  obtain ⟨h1, h2⟩ := h
  subst hp
  refine ⟨fun _ => rfl, ?_⟩
  simp [completeStep] at h2 ⊢
  exact h2

theorem runTrace_inv {V : Type} (tr : List (CacheEvent V)) (s : CacheState V)
    (hv : validTrace s tr = true) (h : CacheInv s) : CacheInv (runTrace s tr) := by
  induction tr generalizing s with
  | nil => exact h
  | cons e rest ih =>
    cases e with
    | call => exact ih (callStep s) hv (callStep_inv s h)
    | complete v =>
      rw [validTrace] at hv
      obtain ⟨hp, hv'⟩ := Bool.and_eq_true_iff.mp hv
      exact ih (completeStep s v) hv' (completeStep_inv s v hp h)

theorem callStep_started {V : Type} (s : CacheState V) :
    (callStep s).completed.isSome = true ∨ (callStep s).pending = true := by
  obtain ⟨c, p, f⟩ := s
  cases c with
  | some v => simp [callStep]
  | none =>
    cases p with
    | true => simp [callStep]
    | false => simp [callStep]

theorem runTrace_started {V : Type} (tr : List (CacheEvent V)) (s : CacheState V)
    (h : s.completed.isSome = true ∨ s.pending = true) :
    (runTrace s tr).completed.isSome = true ∨ (runTrace s tr).pending = true := by
  induction tr generalizing s with
  | nil => exact h
  | cons e rest ih =>
    cases e with
    | call =>
      refine ih (callStep s) ?_
      obtain ⟨c, p, f⟩ := s
      cases c with
      | some v => exact h
      | none =>
        cases p with
        | true => exact h
        | false => simp [callStep]
    | complete v => exact ih (completeStep s v) (Or.inl rfl)

theorem runTrace_append {V : Type} (l₁ l₂ : List (CacheEvent V)) (s : CacheState V) :
    runTrace s (l₁ ++ l₂) = runTrace (runTrace s l₁) l₂ := by
  induction l₁ generalizing s with
  | nil => rfl
  | cons e rest ih =>
    cases e with
    | call => exact ih (callStep s)
    | complete v => exact ih (completeStep s v)

theorem validTrace_append {V : Type} (l₁ l₂ : List (CacheEvent V)) (s : CacheState V)
    (h : validTrace s (l₁ ++ l₂) = true) :
    validTrace s l₁ = true ∧ validTrace (runTrace s l₁) l₂ = true := by
  induction l₁ generalizing s with
  | nil => exact ⟨rfl, h⟩
  | cons e rest ih =>
    cases e with
    | call =>
      rw [List.cons_append, validTrace] at h
      obtain ⟨h1, h2⟩ := ih (callStep s) h
      exact ⟨h1, h2⟩
    | complete v =>
      rw [List.cons_append, validTrace] at h
      obtain ⟨hp, h'⟩ := Bool.and_eq_true_iff.mp h
      obtain ⟨h1, h2⟩ := ih (completeStep s v) h'
      refine ⟨?_, h2⟩
      rw [validTrace, hp, h1]
      rfl

/-- C7 counterexample: the player-stats domain (`loadPlayerData`) has
no pending map, so two concurrent calls for the same key that both
arrive before the first fetch completes each start the underlying
fetch — it runs twice, not once. -/
theorem playerDataCache_duplicate_fetch :
    (runPlayerTrace (initCache (Option Nat))
      [CacheEvent.call, CacheEvent.call]).fetches = 2 ∧ ¬ ((2 : Nat) ≤ 1) := by
  decide

/-- C7 (amended): for the cache domains that implement the keyed
pending-map pattern (`loadEntryHistory`, `loadEntryTransfers`,
`loadEntryLeagueData`), per cache key, in every valid event trace from
the initial state the underlying compute/fetch is started at most
once — exactly once as soon as any call occurred — a call arriving
while a computation is in flight changes nothing and joins the pending
operation, and a call arriving after completion observes the cached
completed value (failure sentinels included) without starting another
fetch.  The original claim's quantification over every cache domain is
false: the player-stats domain has no pending map (see the
counterexample). -/
theorem cacheSingleFlight (V : Type) (tr : List (CacheEvent V))
    (h : validTrace (initCache V) tr = true) :
    ((runTrace (initCache V) tr).fetches ≤ 1
      ∧ (CacheEvent.call ∈ tr → (runTrace (initCache V) tr).fetches = 1))
    ∧ (∀ s : CacheState V, s.pending = true → s.completed = none →
        callStep s = s ∧ callOutcome s = CallOutcome.joinedPending)
    ∧ (∀ (s : CacheState V) (v : V), s.completed = some v →
        callStep s = s ∧ callOutcome s = CallOutcome.cachedVal v) := by
  have hinit : CacheInv (initCache V) := by
    refine ⟨fun hc => rfl, ?_⟩
    simp [initCache]
  have hinv := runTrace_inv tr (initCache V) h hinit
  refine ⟨⟨?_, ?_⟩, ?_, ?_⟩
  · obtain ⟨_, h2⟩ := hinv
    rw [h2]
    split_ifs <;> omega
  · intro hcall
    obtain ⟨pre, post, rfl⟩ := List.append_of_mem hcall
    have hmid : runTrace (initCache V) (pre ++ [CacheEvent.call]) =
        callStep (runTrace (initCache V) pre) := by
      rw [runTrace_append]
      rfl
    have hassoc : pre ++ CacheEvent.call :: post =
        (pre ++ [CacheEvent.call]) ++ post := by
      rw [List.append_assoc]
      rfl
    rw [hassoc, runTrace_append, hmid]
    have hstart' := runTrace_started post _
      (callStep_started (runTrace (initCache V) pre))
    rw [hassoc] at h
    obtain ⟨h1, h2⟩ := validTrace_append (pre ++ [CacheEvent.call]) post
      (initCache V) h
    have hinvPre : CacheInv (runTrace (initCache V) pre) :=
      runTrace_inv pre _ (validTrace_append pre [CacheEvent.call] _ h1).1 hinit
    have hinvMid : CacheInv (callStep (runTrace (initCache V) pre)) :=
      callStep_inv _ hinvPre
    have hvPost : validTrace (callStep (runTrace (initCache V) pre)) post =
        true := by
      rw [← hmid]
      exact h2
    obtain ⟨_, hf⟩ := runTrace_inv post _ hvPost hinvMid
    rw [hf]
    rcases hstart' with hs | hs <;> simp [hs]
  · intro s hp hc
    constructor
    · unfold callStep
      rw [hc, if_pos hp]
    · unfold callOutcome
      rw [hc, if_pos hp]
  · intro s v hc
    constructor
    · unfold callStep
      rw [hc]
    · unfold callOutcome
      rw [hc]

/-- Witness for C7: two calls race, the computation completes with a
failure sentinel (`none`), a third call reads the cached sentinel; the
fetch ran exactly once. -/
theorem cacheSingleFlight_witness :
    validTrace (initCache (Option Nat))
      [CacheEvent.call, CacheEvent.call, CacheEvent.complete none,
        CacheEvent.call] = true ∧
      ((runTrace (initCache (Option Nat))
          [CacheEvent.call, CacheEvent.call, CacheEvent.complete none,
            CacheEvent.call]).fetches ≤ 1
        ∧ (CacheEvent.call ∈ [CacheEvent.call, CacheEvent.call,
            CacheEvent.complete (none : Option Nat), CacheEvent.call] →
          (runTrace (initCache (Option Nat))
            [CacheEvent.call, CacheEvent.call, CacheEvent.complete none,
              CacheEvent.call]).fetches = 1)) :=
  ⟨by decide,
    (cacheSingleFlight (Option Nat)
      [CacheEvent.call, CacheEvent.call, CacheEvent.complete none,
        CacheEvent.call] (by decide)).1⟩

theorem roundLE_trans : ∀ a b c : MatchRow, roundLE a b = true →
    roundLE b c = true → roundLE a c = true := by
  intro a b c hab hbc
  simp only [roundLE, decide_eq_true_eq] at hab hbc ⊢
  omega

theorem roundLE_total : ∀ a b : MatchRow, (roundLE a b || roundLE b a) = true := by
  intro a b
  simp only [roundLE, Bool.or_eq_true, decide_eq_true_eq]
  omega

theorem sortRows_sorted (hist : List MatchRow) :
    (sortRows hist).Pairwise (fun a b => roundLE a b = true) :=
  List.sorted_mergeSort roundLE_trans roundLE_total hist

theorem sortRows_perm (hist : List MatchRow) : (sortRows hist).Perm hist :=
  List.mergeSort_perm hist roundLE

/-- A round-sorted list with pairwise-distinct rounds is determined by
its multiset of rows. -/
theorem sorted_perm_nodup_eq {α : Type} (key : α → Int) :
    ∀ (l₁ l₂ : List α), l₁.Perm l₂ →
      l₁.Pairwise (fun a b => key a ≤ key b) →
      l₂.Pairwise (fun a b => key a ≤ key b) →
      (l₁.map key).Nodup → l₁ = l₂ := by
  intro l₁
  induction l₁ with
  | nil =>
    intro l₂ hp _ _ _
    exact hp.nil_eq
  | cons a t ih =>
    intro l₂ hp hs₁ hs₂ hnd
    cases l₂ with
    | nil =>
      cases hp.symm.nil_eq
    | cons b t₂ =>
      by_cases hab : a = b
      · subst hab
        have ht : t.Perm t₂ := hp.cons_inv
        have hrec := ih t₂ ht (List.Pairwise.of_cons hs₁)
          (List.Pairwise.of_cons hs₂) (by
            simp only [List.map_cons, List.nodup_cons] at hnd
            exact hnd.2)
        rw [hrec]
      · have hb1 : b ∈ a :: t := hp.mem_iff.mpr (List.mem_cons_self b t₂)
        have ha2 : a ∈ b :: t₂ := hp.mem_iff.mp (List.mem_cons_self a t)
        have hbt : b ∈ t := by
          rcases List.mem_cons.mp hb1 with hx | hx
          · exact absurd hx.symm hab
          · exact hx
        have hat2 : a ∈ t₂ := by
          rcases List.mem_cons.mp ha2 with hx | hx
          · exact absurd hx hab
          · exact hx
        have h1 : key a ≤ key b := (List.pairwise_cons.mp hs₁).1 b hbt
        have h2 : key b ≤ key a := (List.pairwise_cons.mp hs₂).1 a hat2
        have hk : key a = key b := le_antisymm h1 h2
        simp only [List.map_cons, List.nodup_cons] at hnd
        exact absurd (hk ▸ List.mem_map_of_mem key hbt) hnd.1

/-- C4 (amended): the snapshot window consists exactly of the played
rows (minutes > 0) in round-ascending order truncated to the trailing
5: every window row is played, the window is round-sorted, its length
is `min 5 playedCount`, with fewer than 5 played rows it holds exactly
all of them, it is a round-dominating suffix of the stably sorted
played list ("the most recent by round"), and with zero played rows
the guarded divisor is 1.  The window is independent of the input
order of the rows whenever the played rounds are pairwise distinct —
with a duplicate round at the trailing-five cut the stable sort makes
the selection input-order dependent, as the counterexample shows. -/
theorem computeWindow_spec (hist : List MatchRow) :
    (∀ m ∈ computeWindow hist, 0 < m.minutes)
    ∧ (computeWindow hist).Pairwise (fun a b => a.round ≤ b.round)
    ∧ (computeWindow hist).length = min 5 (hist.filter playedRow).length
    ∧ ((hist.filter playedRow).length < 5 →
        (computeWindow hist).Perm (hist.filter playedRow))
    ∧ (∃ pre, (sortRows hist).filter playedRow = pre ++ computeWindow hist ∧
        ∀ a ∈ pre, ∀ b ∈ computeWindow hist, a.round ≤ b.round)
    ∧ ((hist.filter playedRow).length = 0 → gamesOf hist = 1)
    ∧ (∀ hist₂ : List MatchRow, hist.Perm hist₂ →
        ((hist.filter playedRow).map (fun m => m.round)).Nodup →
        computeWindow hist = computeWindow hist₂) := by
  have hfp : ((sortRows hist).filter playedRow).Perm (hist.filter playedRow) :=
    (sortRows_perm hist).filter playedRow
  have hsf : ((sortRows hist).filter playedRow).Pairwise
      (fun a b => roundLE a b = true) :=
    List.Pairwise.sublist (List.filter_sublist (sortRows hist)) (sortRows_sorted hist)
  have hwin : computeWindow hist =
      ((sortRows hist).filter playedRow).drop
        (((sortRows hist).filter playedRow).length - 5) := rfl
  have hlenf : ((sortRows hist).filter playedRow).length =
      (hist.filter playedRow).length := hfp.length_eq
  have hlen : (computeWindow hist).length =
      min 5 (hist.filter playedRow).length := by
    rw [hwin, List.length_drop, hlenf]
    omega
  refine ⟨?_, ?_, hlen, ?_, ?_, ?_, ?_⟩
  · intro m hm
    have hm' : m ∈ (sortRows hist).filter playedRow := by
      rw [hwin] at hm
      exact List.drop_subset _ _ hm
    have := (List.mem_filter.mp hm').2
    simpa [playedRow] using this
  · have hsub : (computeWindow hist).Pairwise (fun a b => roundLE a b = true) := by
      rw [hwin]
      exact List.Pairwise.sublist ((List.drop_suffix _ _).sublist) hsf
    exact hsub.imp (fun h => by simpa [roundLE] using h)
  · intro h5
    rw [hwin]
    have : ((sortRows hist).filter playedRow).length - 5 = 0 := by omega
    rw [this, List.drop_zero]
    exact hfp
  · refine ⟨((sortRows hist).filter playedRow).take
      (((sortRows hist).filter playedRow).length - 5), ?_, ?_⟩
    · rw [hwin, List.take_append_drop]
    · intro a ha b hb
      have hsplit := (List.take_append_drop
        (((sortRows hist).filter playedRow).length - 5)
        ((sortRows hist).filter playedRow)).symm
      have hpw := hsf
      rw [hsplit] at hpw
      have := (List.pairwise_append.mp hpw).2.2 a ha b (hwin ▸ hb)
      simpa [roundLE] using this
  · intro h0
    unfold gamesOf
    rw [if_pos (by omega)]
  · intro hist₂ hperm hnodup
    have hperm2 : ((sortRows hist).filter playedRow).Perm
        ((sortRows hist₂).filter playedRow) :=
        (hfp.trans (hperm.filter playedRow)).trans
          ((sortRows_perm hist₂).filter playedRow).symm
    have hs1 : ((sortRows hist).filter playedRow).Pairwise
        (fun a b => a.round ≤ b.round) :=
      hsf.imp (fun h => by simpa [roundLE] using h)
    have hs2 : ((sortRows hist₂).filter playedRow).Pairwise
        (fun a b => a.round ≤ b.round) :=
      (List.Pairwise.sublist (List.filter_sublist (sortRows hist₂))
        (sortRows_sorted hist₂)).imp (fun h => by simpa [roundLE] using h)
    have hnd1 : (((sortRows hist).filter playedRow).map
        (fun m => m.round)).Nodup :=
      ((hfp.map (fun m => m.round)).nodup_iff).mpr hnodup
    have heq := sorted_perm_nodup_eq (fun m => m.round) _ _ hperm2 hs1 hs2 hnd1
    unfold computeWindow lastFive
    rw [heq]

theorem xgcSum_reporting (l : List MatchRow) :
    (l.map (fun m => m.xGC.getD 0)).sum =
      ((l.filter (fun m => m.xGC.isSome)).map (fun m => m.xGC.getD 0)).sum := by
  induction l with
  | nil => rfl
  | cons m t ih =>
    cases hm : m.xGC with
    | none =>
      simp only [List.map_cons, List.sum_cons, List.filter_cons, hm]
      simp [ih, hm]
    | some q =>
      simp only [List.map_cons, List.sum_cons, List.filter_cons, hm]
      simp [ih, hm]

/-- C5: the expected-goals-conceded-per-match value is the sum over
only the window rows that report the field, divided by the total
number of rows in the window (not the number of reporting rows). -/
theorem xgcPerMatch5_divisor (hist : List MatchRow)
    (hne : computeWindow hist ≠ []) :
    xgcPerMatch5 hist =
      (((computeWindow hist).filter (fun m => m.xGC.isSome)).map
        (fun m => m.xGC.getD 0)).sum / ((computeWindow hist).length : ℚ) := by
  have hlen : (computeWindow hist).length ≠ 0 := by
    intro h
    exact hne (List.length_eq_zero.mp h)
  have hg : gamesOf hist = (computeWindow hist).length := by
    unfold gamesOf
    rw [if_neg hlen]
  unfold xgcPerMatch5
  rw [if_pos (by omega), hg]
  unfold xgcSum
  rw [xgcSum_reporting]

/-- C4 counterexample: a double gameweek gives two history rows with
the same round; with six played rows all of round 7, swapping the
first two input rows changes which row the trailing-five cut drops
(the stable sort keeps input order among equal rounds), so the window
is not independent of the input order of the rows. -/
theorem computeWindow_order_dependent :
    (([⟨7, 1, 0, 0, 0, 0, none⟩, ⟨7, 2, 0, 0, 0, 0, none⟩,
      ⟨7, 3, 0, 0, 0, 0, none⟩, ⟨7, 4, 0, 0, 0, 0, none⟩,
      ⟨7, 5, 0, 0, 0, 0, none⟩, ⟨7, 6, 0, 0, 0, 0, none⟩] : List MatchRow).Perm
      [⟨7, 2, 0, 0, 0, 0, none⟩, ⟨7, 1, 0, 0, 0, 0, none⟩,
      ⟨7, 3, 0, 0, 0, 0, none⟩, ⟨7, 4, 0, 0, 0, 0, none⟩,
      ⟨7, 5, 0, 0, 0, 0, none⟩, ⟨7, 6, 0, 0, 0, 0, none⟩]) ∧
      computeWindow [⟨7, 1, 0, 0, 0, 0, none⟩, ⟨7, 2, 0, 0, 0, 0, none⟩,
      ⟨7, 3, 0, 0, 0, 0, none⟩, ⟨7, 4, 0, 0, 0, 0, none⟩,
      ⟨7, 5, 0, 0, 0, 0, none⟩, ⟨7, 6, 0, 0, 0, 0, none⟩] ≠
        computeWindow [⟨7, 2, 0, 0, 0, 0, none⟩, ⟨7, 1, 0, 0, 0, 0, none⟩,
      ⟨7, 3, 0, 0, 0, 0, none⟩, ⟨7, 4, 0, 0, 0, 0, none⟩,
      ⟨7, 5, 0, 0, 0, 0, none⟩, ⟨7, 6, 0, 0, 0, 0, none⟩] := by
  constructor
  · decide
  · have hs1 : sortRows [⟨7, 1, 0, 0, 0, 0, none⟩, ⟨7, 2, 0, 0, 0, 0, none⟩,
      ⟨7, 3, 0, 0, 0, 0, none⟩, ⟨7, 4, 0, 0, 0, 0, none⟩,
      ⟨7, 5, 0, 0, 0, 0, none⟩, ⟨7, 6, 0, 0, 0, 0, none⟩] =
        [⟨7, 1, 0, 0, 0, 0, none⟩, ⟨7, 2, 0, 0, 0, 0, none⟩,
      ⟨7, 3, 0, 0, 0, 0, none⟩, ⟨7, 4, 0, 0, 0, 0, none⟩,
      ⟨7, 5, 0, 0, 0, 0, none⟩, ⟨7, 6, 0, 0, 0, 0, none⟩] :=
      List.mergeSort_of_sorted (by decide)
    have hs2 : sortRows [⟨7, 2, 0, 0, 0, 0, none⟩, ⟨7, 1, 0, 0, 0, 0, none⟩,
      ⟨7, 3, 0, 0, 0, 0, none⟩, ⟨7, 4, 0, 0, 0, 0, none⟩,
      ⟨7, 5, 0, 0, 0, 0, none⟩, ⟨7, 6, 0, 0, 0, 0, none⟩] =
        [⟨7, 2, 0, 0, 0, 0, none⟩, ⟨7, 1, 0, 0, 0, 0, none⟩,
      ⟨7, 3, 0, 0, 0, 0, none⟩, ⟨7, 4, 0, 0, 0, 0, none⟩,
      ⟨7, 5, 0, 0, 0, 0, none⟩, ⟨7, 6, 0, 0, 0, 0, none⟩] :=
      List.mergeSort_of_sorted (by decide)
    unfold computeWindow
    rw [hs1, hs2]
    decide

/-- Witness for C4 (amended) at a concrete three-row history (two
played rows with distinct rounds, one unplayed row) and a permutation
of it. -/
theorem computeWindow_spec_witness :
    (([⟨2, 45, 0, 3, 1, 0, some 1⟩, ⟨1, 90, 1, 0, 0, 0, none⟩,
      ⟨3, 0, 0, 0, 0, 0, none⟩] : List MatchRow).filter playedRow).length < 5 ∧
      ([⟨2, 45, 0, 3, 1, 0, some 1⟩, ⟨1, 90, 1, 0, 0, 0, none⟩,
      ⟨3, 0, 0, 0, 0, 0, none⟩] : List MatchRow).Perm
        [⟨3, 0, 0, 0, 0, 0, none⟩, ⟨1, 90, 1, 0, 0, 0, none⟩,
      ⟨2, 45, 0, 3, 1, 0, some 1⟩] ∧
      ((([⟨2, 45, 0, 3, 1, 0, some 1⟩, ⟨1, 90, 1, 0, 0, 0, none⟩,
      ⟨3, 0, 0, 0, 0, 0, none⟩] : List MatchRow).filter
          playedRow).map (fun m => m.round)).Nodup ∧
      (computeWindow [⟨2, 45, 0, 3, 1, 0, some 1⟩, ⟨1, 90, 1, 0, 0, 0, none⟩,
      ⟨3, 0, 0, 0, 0, 0, none⟩]).Perm
        (([⟨2, 45, 0, 3, 1, 0, some 1⟩, ⟨1, 90, 1, 0, 0, 0, none⟩,
      ⟨3, 0, 0, 0, 0, 0, none⟩] : List MatchRow).filter playedRow) ∧
      computeWindow [⟨2, 45, 0, 3, 1, 0, some 1⟩, ⟨1, 90, 1, 0, 0, 0, none⟩,
      ⟨3, 0, 0, 0, 0, 0, none⟩] =
        computeWindow [⟨3, 0, 0, 0, 0, 0, none⟩, ⟨1, 90, 1, 0, 0, 0, none⟩,
      ⟨2, 45, 0, 3, 1, 0, some 1⟩] :=
  ⟨by decide, by decide, by decide,
    (computeWindow_spec
      [⟨2, 45, 0, 3, 1, 0, some 1⟩, ⟨1, 90, 1, 0, 0, 0, none⟩,
      ⟨3, 0, 0, 0, 0, 0, none⟩]).2.2.2.1 (by decide),
    (computeWindow_spec
      [⟨2, 45, 0, 3, 1, 0, some 1⟩, ⟨1, 90, 1, 0, 0, 0, none⟩,
      ⟨3, 0, 0, 0, 0, 0, none⟩]).2.2.2.2.2.2
      [⟨3, 0, 0, 0, 0, 0, none⟩, ⟨1, 90, 1, 0, 0, 0, none⟩,
      ⟨2, 45, 0, 3, 1, 0, some 1⟩] (by decide) (by decide)⟩

/-- Witness for C5 at a five-row window in which only two rows report
expected goals conceded: the sum of those two is divided by 5. -/
theorem xgcPerMatch5_divisor_witness :
    computeWindow [⟨1, 90, 0, 0, 0, 0, some 1⟩, ⟨2, 90, 0, 0, 0, 0, some 2⟩,
        ⟨3, 90, 0, 0, 0, 0, none⟩, ⟨4, 90, 0, 0, 0, 0, none⟩,
        ⟨5, 90, 0, 0, 0, 0, none⟩] ≠ [] ∧
      xgcPerMatch5 [⟨1, 90, 0, 0, 0, 0, some 1⟩, ⟨2, 90, 0, 0, 0, 0, some 2⟩,
          ⟨3, 90, 0, 0, 0, 0, none⟩, ⟨4, 90, 0, 0, 0, 0, none⟩,
          ⟨5, 90, 0, 0, 0, 0, none⟩] =
        (((computeWindow [⟨1, 90, 0, 0, 0, 0, some 1⟩,
            ⟨2, 90, 0, 0, 0, 0, some 2⟩, ⟨3, 90, 0, 0, 0, 0, none⟩,
            ⟨4, 90, 0, 0, 0, 0, none⟩, ⟨5, 90, 0, 0, 0, 0, none⟩]).filter
              (fun m => m.xGC.isSome)).map (fun m => m.xGC.getD 0)).sum /
          ((computeWindow [⟨1, 90, 0, 0, 0, 0, some 1⟩,
            ⟨2, 90, 0, 0, 0, 0, some 2⟩, ⟨3, 90, 0, 0, 0, 0, none⟩,
            ⟨4, 90, 0, 0, 0, 0, none⟩,
            ⟨5, 90, 0, 0, 0, 0, none⟩]).length : ℚ) := by
  have hs : sortRows [⟨1, 90, 0, 0, 0, 0, some 1⟩, ⟨2, 90, 0, 0, 0, 0, some 2⟩,
      ⟨3, 90, 0, 0, 0, 0, none⟩, ⟨4, 90, 0, 0, 0, 0, none⟩,
      ⟨5, 90, 0, 0, 0, 0, none⟩] =
      [⟨1, 90, 0, 0, 0, 0, some 1⟩, ⟨2, 90, 0, 0, 0, 0, some 2⟩,
        ⟨3, 90, 0, 0, 0, 0, none⟩, ⟨4, 90, 0, 0, 0, 0, none⟩,
        ⟨5, 90, 0, 0, 0, 0, none⟩] :=
    List.mergeSort_of_sorted (by decide)
  have hne : computeWindow [⟨1, 90, 0, 0, 0, 0, some 1⟩,
      ⟨2, 90, 0, 0, 0, 0, some 2⟩, ⟨3, 90, 0, 0, 0, 0, none⟩,
      ⟨4, 90, 0, 0, 0, 0, none⟩, ⟨5, 90, 0, 0, 0, 0, none⟩] ≠ [] := by
    unfold computeWindow
    rw [hs]
    decide
  exact ⟨hne,
    xgcPerMatch5_divisor
      [⟨1, 90, 0, 0, 0, 0, some 1⟩, ⟨2, 90, 0, 0, 0, 0, some 2⟩,
        ⟨3, 90, 0, 0, 0, 0, none⟩, ⟨4, 90, 0, 0, 0, 0, none⟩,
        ⟨5, 90, 0, 0, 0, 0, none⟩] hne⟩

theorem pickList_units (tc : Bool) (p : Int) :
    ∀ l : List Pick, (l.filterMap (fun k => k.element)).Nodup →
      (l.map (pickUnits tc p)).sum =
        (if l.any (fun k => k.element == some p) then 1 else 0) +
          (if l.any (fun k => k.element == some p && k.isCaptain) then 1 else 0) +
          (if (l.any (fun k => k.element == some p && k.isCaptain)) && tc
            then 1 else 0) := by
  intro l
  induction l with
  | nil => intro _; rfl
  | cons k t ih =>
    intro hnd
    cases hk : k.element with
    | none =>
      have hhead : pickUnits tc p k = 0 := by
        unfold pickUnits
        rw [hk]
      have htail : (t.filterMap (fun k => k.element)).Nodup := by
        have : (k :: t).filterMap (fun k => k.element) =
            t.filterMap (fun k => k.element) := by
          rw [List.filterMap_cons_none hk]
        rwa [this] at hnd
      simp only [List.map_cons, List.sum_cons, hhead, List.any_cons, hk]
      rw [ih htail]
      simp
    | some e =>
      have hcons : (k :: t).filterMap (fun k => k.element) =
          e :: t.filterMap (fun k => k.element) := List.filterMap_cons_some hk
      rw [hcons] at hnd
      rw [List.nodup_cons] at hnd
      obtain ⟨hnotin, htail⟩ := hnd
      by_cases hep : e = p
      · subst hep
        have hnone : ∀ j ∈ t, ¬ (j.element == some e) = true := by
          intro j hj hbeq
          refine hnotin ?_
          rw [beq_iff_eq] at hbeq
          rw [List.mem_filterMap]
          exact ⟨j, hj, hbeq⟩
        have htsum : (t.map (pickUnits tc e)).sum = 0 := by
          rw [List.sum_eq_zero]
          intro x hx
          rw [List.mem_map] at hx
          obtain ⟨j, hj, hxu⟩ := hx
          rw [← hxu]
          unfold pickUnits
          cases hje : j.element with
          | none => rfl
          | some e' =>
            have : ¬ e' = e := by
              intro hcon
              refine hnone j hj ?_
              rw [hje, hcon]
              exact beq_self_eq_true (some e)
            simp [this]
        have hany1 : t.any (fun k => k.element == some e) = false := by
          rw [List.any_eq_false]
          exact hnone
        have hany2 : t.any (fun k => k.element == some e && k.isCaptain) =
            false := by
          rw [List.any_eq_false]
          intro j hj hbeq
          rw [Bool.and_eq_true] at hbeq
          exact hnone j hj hbeq.1
        have hhead : pickUnits tc e k = 1 +
            (if k.isCaptain then 1 + (if tc then 1 else 0) else 0) := by
          unfold pickUnits
          rw [hk]
          simp
        simp only [List.map_cons, List.sum_cons, hhead, htsum, List.any_cons,
          hk, hany1, hany2]
        cases hc : k.isCaptain <;> cases htc : tc <;> simp
      · have hhead : pickUnits tc p k = 0 := by
          unfold pickUnits
          rw [hk]
          simp [hep]
        have hbeqf : (k.element == some p) = false := by
          rw [hk]
          simp [hep]
        simp only [List.map_cons, List.sum_cons, hhead, List.any_cons, hbeqf]
        rw [ih htail]
        simp

theorem rivalList_units (p : Int) :
    ∀ L : List RivalPicks,
      (∀ r ∈ L, (r.picks.filterMap (fun k => k.element)).Nodup) →
      (L.map (rivalUnits p)).sum =
        (L.filter (ownsPlayer p)).length + (L.filter (captainsPlayer p)).length +
          (L.filter (tripleCaptainsPlayer p)).length := by
  intro L
  induction L with
  | nil => intro _; rfl
  | cons r t ih =>
    intro hnd
    have hr := pickList_units (isTripleCaptainChip r) p r.picks
      (hnd r (List.mem_cons_self r t))
    have ht := ih (fun x hx => hnd x (List.mem_cons_of_mem r hx))
    simp only [List.map_cons, List.sum_cons, List.filter_cons]
    rw [ht]
    show rivalUnits p r + _ = _
    unfold rivalUnits
    rw [show (r.picks.any fun k => k.element == some p) = ownsPlayer p r
        from rfl,
      show (r.picks.any fun k => k.element == some p && k.isCaptain) =
        captainsPlayer p r from rfl] at hr
    rw [show (captainsPlayer p r && isTripleCaptainChip r) =
      tripleCaptainsPlayer p r from rfl] at hr
    rw [hr]
    cases h1 : ownsPlayer p r <;> cases h2 : captainsPlayer p r <;>
      cases h3 : tripleCaptainsPlayer p r <;>
      simp [h1, h2, h3, List.length_cons] <;> omega

/-- C6: with `n ≥ 1` successfully fetched rivals whose pick lists have
no duplicate player entries, the effective-ownership percentage of a
player decomposes as ownership% + captained% + triple-captained% with
each term `count/n*100`; and a failed rival fetch (a `none` result,
e.g. HTTP 500) anywhere in the batch is excluded from the denominator
and changes nothing — it neither counts as not-owning nor aborts the
aggregation (which is total and raises no error). -/
theorem leagueEO_spec (p : Int) (rs l₁ l₂ : List (Option RivalPicks))
    (hn : 1 ≤ successfulRivals rs)
    (hnd : ∀ r ∈ rs.filterMap id, (r.picks.filterMap (fun k => k.element)).Nodup) :
    eoPct p rs =
        (ownedCount p rs : ℚ) / (successfulRivals rs : ℚ) * 100 +
        (captainedCount p rs : ℚ) / (successfulRivals rs : ℚ) * 100 +
        (tripleCaptainedCount p rs : ℚ) / (successfulRivals rs : ℚ) * 100
    ∧ successfulRivals (l₁ ++ none :: l₂) = successfulRivals (l₁ ++ l₂)
    ∧ eoUnits p (l₁ ++ none :: l₂) = eoUnits p (l₁ ++ l₂)
    ∧ eoPct p (l₁ ++ none :: l₂) = eoPct p (l₁ ++ l₂) := by
  have hskip : (l₁ ++ none :: l₂).filterMap (id : Option RivalPicks → Option RivalPicks) =
      (l₁ ++ l₂).filterMap id := by
    rw [List.filterMap_append, List.filterMap_append, List.filterMap_cons]
    rfl
  refine ⟨?_, ?_, ?_, ?_⟩
  · have hdec : eoUnits p rs =
        ownedCount p rs + captainedCount p rs + tripleCaptainedCount p rs :=
      rivalList_units p (rs.filterMap id) hnd
    unfold eoPct
    rw [hdec]
    have hne : ((successfulRivals rs : ℚ)) ≠ 0 := by
      have : (0 : ℚ) < (successfulRivals rs : ℚ) := by
        exact_mod_cast hn
      exact ne_of_gt this
    push_cast
    field_simp
    ring
  · unfold successfulRivals
    rw [hskip]
  · unfold eoUnits
    rw [hskip]
  · unfold eoPct eoUnits successfulRivals
    rw [hskip]

/-- Witness for C6: two successful rivals and one failed fetch; rival 1
owns and captains player 10 under a `3xc` chip, rival 2 merely owns
them. -/
theorem leagueEO_spec_witness :
    1 ≤ successfulRivals [some ⟨[⟨some 10, true, false⟩], "3xc"⟩, none,
        some ⟨[⟨some 10, false, false⟩, ⟨some 11, true, false⟩], ""⟩] ∧
      (∀ r ∈ ([some ⟨[⟨some 10, true, false⟩], "3xc"⟩, none,
          some ⟨[⟨some 10, false, false⟩, ⟨some 11, true, false⟩], ""⟩] :
            List (Option RivalPicks)).filterMap id,
        (r.picks.filterMap (fun k => k.element)).Nodup) ∧
      eoPct 10 [some ⟨[⟨some 10, true, false⟩], "3xc"⟩, none,
          some ⟨[⟨some 10, false, false⟩, ⟨some 11, true, false⟩], ""⟩] =
        (ownedCount 10 [some ⟨[⟨some 10, true, false⟩], "3xc"⟩, none,
            some ⟨[⟨some 10, false, false⟩, ⟨some 11, true, false⟩], ""⟩] : ℚ) /
          (successfulRivals [some ⟨[⟨some 10, true, false⟩], "3xc"⟩, none,
            some ⟨[⟨some 10, false, false⟩, ⟨some 11, true, false⟩], ""⟩] : ℚ) *
          100 +
        (captainedCount 10 [some ⟨[⟨some 10, true, false⟩], "3xc"⟩, none,
            some ⟨[⟨some 10, false, false⟩, ⟨some 11, true, false⟩], ""⟩] : ℚ) /
          (successfulRivals [some ⟨[⟨some 10, true, false⟩], "3xc"⟩, none,
            some ⟨[⟨some 10, false, false⟩, ⟨some 11, true, false⟩], ""⟩] : ℚ) *
          100 +
        (tripleCaptainedCount 10 [some ⟨[⟨some 10, true, false⟩], "3xc"⟩, none,
            some ⟨[⟨some 10, false, false⟩, ⟨some 11, true, false⟩], ""⟩] : ℚ) /
          (successfulRivals [some ⟨[⟨some 10, true, false⟩], "3xc"⟩, none,
            some ⟨[⟨some 10, false, false⟩, ⟨some 11, true, false⟩], ""⟩] : ℚ) *
          100 :=
  ⟨by decide, by decide,
    (leagueEO_spec 10
      [some ⟨[⟨some 10, true, false⟩], "3xc"⟩, none,
        some ⟨[⟨some 10, false, false⟩, ⟨some 11, true, false⟩], ""⟩] [] []
      (by decide) (by decide)).1⟩

/-- The per-player subset invariant of the ownership maps. -/
def OwnershipInv (m : OwnershipMaps) : Prop :=
  ∀ p : Int, m.captainedBy p ⊆ m.ownedBy p ∧
    m.tripleCaptainedBy p ⊆ m.captainedBy p

/-- Invariant carried through the pick fold: the maps are consistent
and the tracked captain (if any) is already recorded as captained by
this entry. -/
def PickInv (e : Int) (st : OwnershipMaps × Option Int) : Prop :=
  OwnershipInv st.1 ∧ ∀ c : Int, st.2 = some c → e ∈ st.1.captainedBy c

theorem subset_addTo (f : Int → Finset Int) (p e q : Int) :
    f q ⊆ addTo f p e q := by
  unfold addTo
  split_ifs
  · exact Finset.subset_insert e (f q)
  · exact Finset.Subset.refl (f q)

theorem addTo_mono {f g : Int → Finset Int} (h : ∀ q, f q ⊆ g q)
    (p e q : Int) : addTo f p e q ⊆ addTo g p e q := by
  unfold addTo
  split_ifs
  · exact Finset.insert_subset_insert e (h q)
  · exact h q

theorem mem_addTo_self (f : Int → Finset Int) (p e : Int) :
    e ∈ addTo f p e p := by
  unfold addTo
  rw [if_pos rfl]
  exact Finset.mem_insert_self e (f p)

theorem processPick_inv (e : Int) (st : OwnershipMaps × Option Int) (k : Pick)
    (h : PickInv e st) : PickInv e (processPick e st k) := by
  obtain ⟨hinv, hcap⟩ := h
  unfold processPick
  cases hk : k.element with
  | none => exact ⟨hinv, hcap⟩
  | some pid =>
    cases hc : k.isCaptain with
    | false =>
      simp only [Bool.false_eq_true, if_false]
      refine ⟨fun p => ⟨?_, (hinv p).2⟩, ?_⟩
      · exact (hinv p).1.trans (subset_addTo st.1.ownedBy pid e p)
      · intro c hcs
        exact hcap c hcs
    | true =>
      simp only [if_true]
      refine ⟨fun p => ⟨?_, ?_⟩, ?_⟩
      · exact addTo_mono (fun q => (hinv q).1) pid e p
      · exact (hinv p).2.trans (subset_addTo st.1.captainedBy pid e p)
      · intro c hcs
        injection hcs with hcs'
        subst hcs'
        exact mem_addTo_self _ _ _

theorem foldl_pickInv (e : Int) (l : List Pick) (st : OwnershipMaps × Option Int)
    (h : PickInv e st) : PickInv e (l.foldl (processPick e) st) := by
  induction l generalizing st with
  | nil => exact h
  | cons k t ih => exact ih (processPick e st k) (processPick_inv e st k h)

theorem processRival_inv (st : OwnershipMaps) (r : RivalEntry)
    (h : OwnershipInv st) : OwnershipInv (processRival st r) := by
  have hfold := foldl_pickInv r.entryId r.picks (st, none)
    ⟨h, fun c hc => by cases hc⟩
  unfold processRival
  simp only []
  generalize hres : r.picks.foldl (processPick r.entryId) (st, none) = res
  rw [hres] at hfold
  obtain ⟨m, capId⟩ := res
  cases capId with
  | none => exact hfold.1
  | some c =>
    simp only []
    split_ifs with hchip
    · intro p
      refine ⟨(hfold.1 p).1, ?_⟩
      show addTo m.tripleCaptainedBy c r.entryId p ⊆ m.captainedBy p
      unfold addTo
      split_ifs with hp
      · subst hp
        exact Finset.insert_subset (hfold.2 p rfl) (hfold.1 p).2
      · exact (hfold.1 p).2
    · exact hfold.1

theorem foldl_rival_inv (L : List RivalEntry) (st : OwnershipMaps)
    (h : OwnershipInv st) : OwnershipInv (L.foldl processRival st) := by
  induction L generalizing st with
  | nil => exact h
  | cons r t ih => exact ih (processRival st r) (processRival_inv st r h)

theorem buildOwnership_inv (rs : List (Option RivalEntry)) :
    OwnershipInv (buildOwnership rs) :=
  foldl_rival_inv (rs.filterMap id) emptyOwnership
    (fun _ => ⟨Finset.Subset.refl _, Finset.Subset.refl _⟩)

/-- C10: in every mini-league ownership snapshot, the entries
captaining a player are a subset of those owning them and the entries
triple-captaining them are a subset of those captaining them; with at
least one successful rival the derived percentages therefore satisfy
captainPct ≤ ownershipPct, tripleCaptainPct ≤ captainPct and
eoPct ≤ 3 · ownershipPct. -/
theorem miniLeagueOwnership_invariants (rs : List (Option RivalEntry)) (p : Int)
    (hn : 1 ≤ mlSuccessfulRivals rs) :
    ((buildOwnership rs).captainedBy p ⊆ (buildOwnership rs).ownedBy p)
    ∧ ((buildOwnership rs).tripleCaptainedBy p ⊆ (buildOwnership rs).captainedBy p)
    ∧ captainPct rs p ≤ ownershipPct rs p
    ∧ tripleCaptainPct rs p ≤ captainPct rs p
    ∧ mlEoPct rs p ≤ 3 * ownershipPct rs p := by
  obtain ⟨h1, h2⟩ := buildOwnership_inv rs p
  have hcard1 := Finset.card_le_card h1
  have hcard2 := Finset.card_le_card h2
  have hnq : (0 : ℚ) < (mlSuccessfulRivals rs : ℚ) := by
    exact_mod_cast hn
  have hp1 : captainPct rs p ≤ ownershipPct rs p := by
    unfold captainPct ownershipPct
    refine mul_le_mul_of_nonneg_right ?_ (by norm_num)
    exact (div_le_div_iff_of_pos_right hnq).mpr (by exact_mod_cast hcard1)
  have hp2 : tripleCaptainPct rs p ≤ captainPct rs p := by
    unfold tripleCaptainPct captainPct
    refine mul_le_mul_of_nonneg_right ?_ (by norm_num)
    exact (div_le_div_iff_of_pos_right hnq).mpr (by exact_mod_cast hcard2)
  refine ⟨h1, h2, hp1, hp2, ?_⟩
  unfold mlEoPct
  linarith

/-- Witness for C10: a single successful rival captaining player 10
under a triple-captain chip. -/
theorem miniLeagueOwnership_invariants_witness :
    1 ≤ mlSuccessfulRivals [some ⟨1, [⟨some 10, true, false⟩], "3xc"⟩] ∧
      (((buildOwnership [some ⟨1, [⟨some 10, true, false⟩], "3xc"⟩]).captainedBy
          10 ⊆
        (buildOwnership [some ⟨1, [⟨some 10, true, false⟩], "3xc"⟩]).ownedBy 10)
      ∧ ((buildOwnership
            [some ⟨1, [⟨some 10, true, false⟩], "3xc"⟩]).tripleCaptainedBy 10 ⊆
          (buildOwnership
            [some ⟨1, [⟨some 10, true, false⟩], "3xc"⟩]).captainedBy 10)
      ∧ captainPct [some ⟨1, [⟨some 10, true, false⟩], "3xc"⟩] 10 ≤
          ownershipPct [some ⟨1, [⟨some 10, true, false⟩], "3xc"⟩] 10
      ∧ tripleCaptainPct [some ⟨1, [⟨some 10, true, false⟩], "3xc"⟩] 10 ≤
          captainPct [some ⟨1, [⟨some 10, true, false⟩], "3xc"⟩] 10
      ∧ mlEoPct [some ⟨1, [⟨some 10, true, false⟩], "3xc"⟩] 10 ≤
          3 * ownershipPct [some ⟨1, [⟨some 10, true, false⟩], "3xc"⟩] 10) :=
  ⟨by decide,
    miniLeagueOwnership_invariants [some ⟨1, [⟨some 10, true, false⟩], "3xc"⟩]
      10 (by decide)⟩

end FPL
